import Mathlib

/-!
Verification development for the gotenks stream-fusion engine.

The C++ sources are shallowly embedded here:

* `node_kind`, `node` — `src/gotenks/node.h` (kind tag and callable of one step).
* `run_steps`, `interpreted_next` — the interpreter pull-one loop of
  `fused::interpreted_next` (value-level behavior; both source variants agree
  on values and differ only in refcounting, which is modelled separately by
  the counted variants below).
* `pull_all` — repeatedly pulling one element until exhaustion or error.
* `step_eval`, `naive_nested_eval` — modelled from the spec: the naive nested
  map/filter implementation the engine is compared against.

Host values are a type parameter `Val`; a host callable is modelled by its
observable behavior `Val → Option Val` (`none` = the call raised).  The
truthiness primitive (`PyObject_Not`) is a parameter
`objN : Val → Option Bool`: `some true` means "falsy / mask out",
`some false` means "truthy / keep", `none` means the primitive raised.
-/

set_option autoImplicit false

namespace Gotenks

/-- The kind of operation associated with a step's function
(`enum class node_kind { map = 0, filter = 1 }`). -/
inductive node_kind where
  | map : node_kind
  | filter : node_kind
  deriving DecidableEq, Repr

/-- One step of a fused pipeline: a callable plus its kind
(`struct node` in `node.h`); the callable is represented by `F`. -/
structure node (F : Type) where
  function : F
  kind : node_kind
  deriving DecidableEq, Repr

/-- Outcome of running the step loop on one element drawn from the source. -/
inductive step_out (Val : Type) where
  | yielded : Val → step_out Val
  | filtered : step_out Val
  | errored : step_out Val
  deriving DecidableEq, Repr

/-- Outcome of one pull (`interpreted_next`): a value, exhaustion
(`PyIter_Next` returned null with no error), or a host error. -/
inductive next_res (Val : Type) where
  | value : Val → next_res Val
  | exhausted : next_res Val
  | errored : next_res Val
  deriving DecidableEq, Repr

/-- How a fully drained stream ended. -/
inductive end_state where
  | exhausted : end_state
  | errored : end_state
  deriving DecidableEq, Repr

variable {Val : Type}

/-- The inner `for (const node& step : m_steps)` loop of
`fused::interpreted_next`, run on one element: a map replaces the element
with the call's result, a filter keeps the original element exactly when
`PyObject_Not` on the call's result returns 0 (`some false`), drops it on 1
(`some true`), and every failing host call aborts with an error. -/
def run_steps (objN : Val → Option Bool) :
    List (node (Val → Option Val)) → Val → step_out Val
  | [], element => .yielded element
  | step :: rest, element =>
    match step.function element with
    | none => .errored
    | some applied =>
      match step.kind with
      | .map => run_steps objN rest applied
      | .filter =>
        match objN applied with
        | none => .errored
        | some true => .filtered
        | some false => run_steps objN rest element

/-- The outer `while ((element = PyIter_Next(m_iter)))` loop of
`fused::interpreted_next`: the source is a list whose head is the next
element; the pull returns the outcome together with the remaining source. -/
def interpreted_next (objN : Val → Option Bool)
    (steps : List (node (Val → Option Val))) :
    List Val → next_res Val × List Val
  | [] => (.exhausted, [])
  | e :: rest =>
    match run_steps objN steps e with
    | .yielded v => (.value v, rest)
    | .errored => (.errored, rest)
    | .filtered => interpreted_next objN steps rest

/-- Draining the iterator: the elements produced by repeated pulls, together
with how the stream ended.  `pull_all_is_repeated_pull_one` below proves that
this equals repeatedly invoking `interpreted_next`. -/
def pull_all (objN : Val → Option Bool)
    (steps : List (node (Val → Option Val))) :
    List Val → List Val × end_state
  | [] => ([], .exhausted)
  | e :: rest =>
    match run_steps objN steps e with
    | .yielded v =>
      let p := pull_all objN steps rest
      (v :: p.1, p.2)
    | .filtered => pull_all objN steps rest
    | .errored => ([], .errored)

/-- Modelled from the spec: one stage of the naive nested implementation, a
single (unfused) map or filter iterator applied to a finite stream.  A map
replaces each element by the callable's result; a filter keeps the original
element exactly when the truthiness primitive returns 0 on the predicate's
result; any host error truncates the stream with an error. -/
def step_eval (objN : Val → Option Bool) (st : node (Val → Option Val)) :
    List Val → List Val × end_state
  | [] => ([], .exhausted)
  | v :: rest =>
    match st.function v with
    | none => ([], .errored)
    | some applied =>
      match st.kind with
      | .map =>
        let p := step_eval objN st rest
        (applied :: p.1, p.2)
      | .filter =>
        match objN applied with
        | none => ([], .errored)
        | some true => step_eval objN st rest
        | some false =>
          let p := step_eval objN st rest
          (v :: p.1, p.2)

/-- Modelled from the spec: the naive nested implementation.  Each step wraps
the stream produced by the ones before it (`steps[0]` innermost), so an
element rejected by a filter never reaches a downstream step.  An error in a
downstream stage wins over the end state of the stages underneath it, since
the nested iterators are driven lazily from the outside. -/
def naive_nested_eval (objN : Val → Option Bool) :
    List (node (Val → Option Val)) → List Val → List Val × end_state
  | [], s => (s, .exhausted)
  | st :: rest, s =>
    let p := step_eval objN st s
    let q := naive_nested_eval objN rest p.1
    (q.1, match q.2 with | .errored => .errored | .exhausted => p.2)

/-- The step chain of the function emitted by `jit::compile` (jit.cc), run on
one element.  It mirrors the emitted basic blocks: per step, call the
callable into `applied` (null: release element, return null); for a map,
release the element, assign `element := applied` and fall through; for a
filter, run `PyObject_Not` on `applied`, release `applied`, and switch on the
result: case 0 falls through with the original element, case 1 releases the
element and jumps back to `next_element`, and the default (error) case
releases the element and returns null. -/
def jit_run_steps (objN : Val → Option Bool) :
    List (node (Val → Option Val)) → Val → step_out Val
  | [], element => .yielded element
  | step :: rest, element =>
    match step.function element with
    | none => .errored
    | some applied =>
      match step.kind with
      | .map => jit_run_steps objN rest applied
      | .filter =>
        match objN applied with
        | some false => jit_run_steps objN rest element
        | some true => .filtered
        | none => .errored

/-- The full emitted `next` function of `jit::compile`: the `next_element`
block draws from the source (null: return null/exhausted), then the step
chain runs; a filter's drop case jumps back to `next_element`. -/
def compiled_next (objN : Val → Option Bool)
    (steps : List (node (Val → Option Val))) :
    List Val → next_res Val × List Val
  | [] => (.exhausted, [])
  | e :: rest =>
    match jit_run_steps objN steps e with
    | .yielded v => (.value v, rest)
    | .filtered => compiled_next objN steps rest
    | .errored => (.errored, rest)

/-- Number of handles a pull outcome transfers to the caller: one for a
yielded value, none for exhaustion or error. -/
def transferred : next_res Val → Nat
  | .value _ => 1
  | .exhausted => 0
  | .errored => 0

/-- Handles held by the step-loop outcome: a yielded element is a live handle
handed back to the outer loop, a filtered/errored outcome holds none. -/
def held_handles : step_out Val → Nat
  | .yielded _ => 1
  | .filtered => 0
  | .errored => 0

/-- The step loop of `fused::interpreted_next` in the `part_000` source
variant, instrumented with handle accounting: alongside the outcome it
returns `(acquired, released)` — `acquired` counts owned handles obtained
from the host (each successful `call_function` result), `released` counts
`Py_DECREF` calls.  This variant executes `Py_DECREF(element)` at
`map_label` before `element = applied`. -/
def run_steps_counted (objN : Val → Option Bool) :
    List (node (Val → Option Val)) → Val → step_out Val × Nat × Nat
  | [], element => (.yielded element, 0, 0)
  | step :: rest, element =>
    match step.function element with
    | none => (.errored, 0, 1)
    | some applied =>
      match step.kind with
      | .map =>
        let r := run_steps_counted objN rest applied
        (r.1, r.2.1 + 1, r.2.2 + 1)
      | .filter =>
        match objN applied with
        | none => (.errored, 1, 2)
        | some true => (.filtered, 1, 2)
        | some false =>
          let r := run_steps_counted objN rest element
          (r.1, r.2.1 + 1, r.2.2 + 1)

/-- The step loop of `fused::interpreted_next` in the `fused.cc` source
variant, with the same handle accounting.  Its `map_label` assigns
`element = applied` without a `Py_DECREF(element)`, so the map branch
acquires the applied handle but releases nothing. -/
def run_steps_counted_leaky (objN : Val → Option Bool) :
    List (node (Val → Option Val)) → Val → step_out Val × Nat × Nat
  | [], element => (.yielded element, 0, 0)
  | step :: rest, element =>
    match step.function element with
    | none => (.errored, 0, 1)
    | some applied =>
      match step.kind with
      | .map =>
        let r := run_steps_counted_leaky objN rest applied
        (r.1, r.2.1 + 1, r.2.2)
      | .filter =>
        match objN applied with
        | none => (.errored, 1, 2)
        | some true => (.filtered, 1, 2)
        | some false =>
          let r := run_steps_counted_leaky objN rest element
          (r.1, r.2.1 + 1, r.2.2 + 1)

/-- `fused::interpreted_next` of the `part_000` variant with handle
accounting: each successful `PyIter_Next` acquires the element handle. -/
def interpreted_next_counted (objN : Val → Option Bool)
    (steps : List (node (Val → Option Val))) :
    List Val → (next_res Val × List Val) × Nat × Nat
  | [] => ((.exhausted, []), 0, 0)
  | e :: rest =>
    let r := run_steps_counted objN steps e
    match r.1 with
    | .yielded v => ((.value v, rest), r.2.1 + 1, r.2.2)
    | .errored => ((.errored, rest), r.2.1 + 1, r.2.2)
    | .filtered =>
      let r2 := interpreted_next_counted objN steps rest
      (r2.1, r.2.1 + 1 + r2.2.1, r.2.2 + r2.2.2)

/-- `fused::interpreted_next` of the `fused.cc` variant with handle
accounting. -/
def interpreted_next_counted_leaky (objN : Val → Option Bool)
    (steps : List (node (Val → Option Val))) :
    List Val → (next_res Val × List Val) × Nat × Nat
  | [] => ((.exhausted, []), 0, 0)
  | e :: rest =>
    let r := run_steps_counted_leaky objN steps e
    match r.1 with
    | .yielded v => ((.value v, rest), r.2.1 + 1, r.2.2)
    | .errored => ((.errored, rest), r.2.1 + 1, r.2.2)
    | .filtered =>
      let r2 := interpreted_next_counted_leaky objN steps rest
      (r2.1, r.2.1 + 1 + r2.2.1, r.2.2 + r2.2.2)

/-- Truthiness of a Python int: `PyObject_Not` returns 1 exactly on 0. -/
def obj_not_nat : Nat → Option Bool := fun v => some (decide (v = 0))

/-- A concrete host callable used in counterexamples: adds one, but raises
exactly on the input 2 (like spec scenario S5's map function). -/
def raising_on_two : Nat → Option Nat :=
  fun x => if x = 2 then none else some (x + 1)

/-- The `while ((element = PyIter_Next(m_iter)))` loop of
`fused::interpreted_to_list`, with the accumulated output list and the
host's pending-error flag threaded through.  `PyIter_Next` returns null both
on exhaustion and on an advance error; `send` says which of the two the
source reports once its elements are spent.  The loop cannot tell them
apart — there is no `PyErr_Occurred` check — so in both cases it falls out
of the loop and returns the accumulated list, with the error state still
pending in the advance-error case.  `app v` models whether
`PyList_Append(out, v)` succeeds; its return value is never checked, so a
failed append leaves the element out of the result, sets the pending error
state, and iteration continues.  Only a callable or truthiness error makes
the routine release and return null (`none`), with the error pending.  The
returned flag is the host error state at return. -/
def to_list_go (objN : Val → Option Bool)
    (steps : List (node (Val → Option Val))) (app : Val → Bool)
    (send : end_state) :
    List Val → List Val → Bool → Option (List Val) × Bool
  | [], out, pending =>
    (some out, pending || decide (send = end_state.errored))
  | e :: rest, out, pending =>
    match run_steps objN steps e with
    | .yielded v =>
      if app v then to_list_go objN steps app send rest (out ++ [v]) pending
      else to_list_go objN steps app send rest out true
    | .filtered => to_list_go objN steps app send rest out pending
    | .errored => (none, true)

/-- `fused::interpreted_to_list`: materialize the stream into a host list,
starting from a fresh empty list and a clear host error state.  The result
is the returned object (`none` = null) together with whether a host error is
pending when the routine returns. -/
def interpreted_to_list (objN : Val → Option Bool)
    (steps : List (node (Val → Option Val))) (app : Val → Bool)
    (send : end_state) (s : List Val) : Option (List Val) × Bool :=
  to_list_go objN steps app send s [] false

/-- The loop of the `part_000` variant of `fused::interpreted_to_list` with
handle accounting (`acquired`, `released`), threading the counters.  Each
successful `PyIter_Next` acquires the element handle; `PyList_Append` is
refcount-neutral for the caller (the list takes its own reference) and the
code performs no `Py_DECREF(element)` after appending; on a stream error the
code releases the element (inside the step loop) and the output list. -/
def to_list_counted_go (objN : Val → Option Bool)
    (steps : List (node (Val → Option Val))) :
    List Val → Nat × Nat → Option Unit × Nat × Nat
  | [], qr => (some (), qr.1, qr.2)
  | e :: rest, qr =>
    let st := run_steps_counted objN steps e
    match st.1 with
    | .yielded _ => to_list_counted_go objN steps rest
        (qr.1 + 1 + st.2.1, qr.2 + st.2.2)
    | .filtered => to_list_counted_go objN steps rest
        (qr.1 + 1 + st.2.1, qr.2 + st.2.2)
    | .errored => (none, qr.1 + 1 + st.2.1, qr.2 + st.2.2 + 1)

/-- `fused::interpreted_to_list` (`part_000` variant) with handle accounting:
`PyList_New` acquires the output list handle, then the loop runs; the result
records whether a list was returned and the total `(acquired, released)`. -/
def interpreted_to_list_counted (objN : Val → Option Bool)
    (steps : List (node (Val → Option Val))) (s : List Val) :
    Option Unit × Nat × Nat :=
  to_list_counted_go objN steps s (1, 0)

/-- The fused pipeline (`struct fused`): the step vector in application order
plus the owned source-iterator handle, modelled by the handle's identity. -/
structure fused (F : Type) where
  steps : List (node F)
  iter : Nat
  deriving DecidableEq, Repr

/-- `fused::fused(function, kind, iter)`: a single-node pipeline over a host
iterator. -/
def fused_over {F : Type} (f : F) (kind : node_kind) (iter : Nat) : fused F :=
  ⟨[⟨f, kind⟩], iter⟩

/-- `fused::fused(function, kind, tail, compose)`: extension of an existing
pipeline.  The steps are copied and the tail's iterator handle is retained.
If the new step and the copied last step are both maps, the constructor
calls `compose(function, last.function)`: on success it replaces the last
node's callable in place (`last.function(composed)`), appending nothing; on
failure it clears the host error state and falls through to appending a new
node.  The compose collaborator is modelled as `F → F → Option F`. -/
def fused_extend {F : Type} (f : F) (kind : node_kind) (tail : fused F)
    (compose : F → F → Option F) : fused F :=
  match tail.steps.getLast? with
  | some last =>
    if kind = node_kind.map ∧ last.kind = node_kind.map then
      match compose f last.function with
      | some composed =>
        ⟨tail.steps.dropLast ++ [⟨composed, node_kind.map⟩], tail.iter⟩
      | none => ⟨tail.steps ++ [⟨f, kind⟩], tail.iter⟩
    else ⟨tail.steps ++ [⟨f, kind⟩], tail.iter⟩
  | none => ⟨tail.steps ++ [⟨f, kind⟩], tail.iter⟩

/-- A whole chain of builder calls: the first `map`/`filter` call creates the
pipeline over the source iterator, each later call extends it (`new_fused`
with a fused-iterator tail). -/
def build_chain {F : Type} (f0 : F) (k0 : node_kind) (iter : Nat)
    (calls : List (F × node_kind)) (compose : F → F → Option F) : fused F :=
  calls.foldl (fun acc c => fused_extend c.1 c.2 acc compose)
    (fused_over f0 k0 iter)

/-- Number of Map nodes in a step vector. -/
def map_node_count {F : Type} (l : List (node F)) : Nat :=
  l.countP (fun st => decide (st.kind = node_kind.map))

/-- No two adjacent Map steps. -/
def no_adjacent_maps {F : Type} (l : List (node F)) : Prop :=
  List.Chain'
    (fun a b => ¬(a.kind = node_kind.map ∧ b.kind = node_kind.map)) l

/-- The two kind names of `methods::steps`
(`PyObject* names[] = {map_string, filter_string}`). -/
def kind_names : List String := ["map", "filter"]

/-- The dense index of a step kind (`static_cast<std::size_t>(step.kind())`,
with `map = 0, filter = 1`). -/
def kind_index : node_kind → Nat
  | .map => 0
  | .filter => 1

/-- `methods::steps`: the snapshot list of `(kind_name, callable)` pairs, one
per surviving step, the name selected by indexing `names` with the kind
tag. -/
def steps_method {F : Type} (p : fused F) : List (String × F) :=
  p.steps.map (fun st => (kind_names.getD (kind_index st.kind) "", st.function))

/-- Modelled from the spec: the kind name of an entry is exactly the string
"map" for a Map step and exactly "filter" for a Filter step. -/
def kind_name_spec : node_kind → String
  | .map => "map"
  | .filter => "filter"

/-- `fused::interpreted_next` instrumented with the list of source elements
drawn by `PyIter_Next` during the pull (same loop as `interpreted_next`). -/
def interpreted_next_traced (objN : Val → Option Bool)
    (steps : List (node (Val → Option Val))) :
    List Val → (next_res Val × List Val) × List Val
  | [] => ((.exhausted, []), [])
  | e :: rest =>
    match run_steps objN steps e with
    | .yielded v => ((.value v, rest), [e])
    | .errored => ((.errored, rest), [e])
    | .filtered =>
      let r := interpreted_next_traced objN steps rest
      (r.1, e :: r.2)

/-- The dispatcher slot `m_next` of the public iterator object (`part_000`,
JIT build): it holds `first_next` until the one-time decision runs. -/
inductive next_fn where
  | first : next_fn
  | interpreted : next_fn
  | compiled : next_fn
  deriving DecidableEq, Repr

/-- Observable outcome of one dispatched pull: which routine ran, or a
compilation error propagated as null. -/
inductive dispatch_out where
  | ran_interpreted : dispatch_out
  | ran_compiled : dispatch_out
  | errored : dispatch_out
  deriving DecidableEq, Repr

/-- `constexpr std::size_t compile_threshold_steps = 10`. -/
def compile_threshold_steps : Nat := 10

/-- `constexpr Py_ssize_t compile_threshold_size = 50000000`. -/
def compile_threshold_size : Nat := 50000000

/-- `first_next` (`part_000`): on the first pull, if the step count is below
the step threshold or the source's length hint is below the size threshold,
set `m_next := interpreted_next` and run it; otherwise attempt compilation
(`compile_res` models the result of `fused::compile()`): on failure return
null — `m_next` is left unchanged — and on success store the compiled
function, set `m_next := compiled_next` and run it.  Returns the new
`m_next` slot and the routine that ran. -/
def first_next (size hint : Nat) (compile_res : Option Unit) :
    next_fn × dispatch_out :=
  if size < compile_threshold_steps ∨ hint < compile_threshold_size then
    (.interpreted, .ran_interpreted)
  else
    match compile_res with
    | none => (.first, .errored)
    | some _ => (.compiled, .ran_compiled)

/-- `methods::iternext` (JIT build): each pull goes through the current
`m_next` slot; the interpreted and compiled slots never change again. -/
def iternext_dispatch (st : next_fn) (size hint : Nat)
    (compile_res : Option Unit) : next_fn × dispatch_out :=
  match st with
  | .first => first_next size hint compile_res
  | .interpreted => (.interpreted, .ran_interpreted)
  | .compiled => (.compiled, .ran_compiled)

/-- `Py_INCREF` on a (possibly null) callable handle, acting on a
refcount table indexed by callable identity. -/
def py_incref (rc : Nat → Int) (h : Option Nat) : Nat → Int :=
  match h with
  | some f => fun x => if x = f then rc x + 1 else rc x
  | none => rc

/-- `Py_XDECREF` on a (possibly null) callable handle. -/
def py_xdecref (rc : Nat → Int) (h : Option Nat) : Nat → Int :=
  match h with
  | some f => fun x => if x = f then rc x - 1 else rc x
  | none => rc

/-- `node(function, kind)`: stores the callable and acquires a reference.
The node's state is its `m_function` slot (`none` models a nulled slot). -/
def node_ctor (f : Nat) (rc : Nat → Int) : Option Nat × (Nat → Int) :=
  (some f, py_incref rc (some f))

/-- `node(const node&)`: copies the slot and acquires a reference. -/
def node_copy_ctor (src : Option Nat) (rc : Nat → Int) :
    Option Nat × (Nat → Int) :=
  (src, py_incref rc src)

/-- `node(node&&)`: transfers the slot, nulling the source; no refcount
change.  Returns `(new node, moved-from source)`. -/
def node_move_ctor (src : Option Nat) (rc : Nat → Int) :
    (Option Nat × Option Nat) × (Nat → Int) :=
  ((src, none), rc)

/-- `node::operator=(const node&)`: `m_function = cpfrom.m_function` then
`Py_INCREF(m_function)` — the destination's previously held reference is
not released. -/
def node_copy_assign (_dst src : Option Nat) (rc : Nat → Int) :
    Option Nat × (Nat → Int) :=
  (src, py_incref rc src)

/-- `node::operator=(node&&)`: transfers the slot and nulls the source — the
destination's previously held reference is not released.  Returns
`(new destination, moved-from source)`. -/
def node_move_assign (_dst src : Option Nat) (rc : Nat → Int) :
    (Option Nat × Option Nat) × (Nat → Int) :=
  ((src, none), rc)

/-- `~node()`: `Py_XDECREF(m_function)`. -/
def node_dtor (h : Option Nat) (rc : Nat → Int) : Nat → Int :=
  py_xdecref rc h

/-- Refcounts after: `n1 := node(0); n2 := node(1); n2 = n1` (copy
assignment) `; ~n2; ~n1`, starting from all-zero refcounts. -/
def node_copy_assign_scenario : Nat → Int :=
  let s1 := node_ctor 0 (fun _ => 0)
  let s2 := node_ctor 1 s1.2
  let s3 := node_copy_assign s2.1 s1.1 s2.2
  let rc4 := node_dtor s3.1 s3.2
  node_dtor s1.1 rc4

/-- Refcounts after: `n1 := node(0); n2 := node(n1)` (copy construction)
`; ~n2; ~n1`, starting from all-zero refcounts. -/
def node_copy_ctor_scenario : Nat → Int :=
  let s1 := node_ctor 0 (fun _ => 0)
  let s2 := node_copy_ctor s1.1 s1.2
  let rc3 := node_dtor s2.1 s2.2
  node_dtor s1.1 rc3

/-- Refcounts after: `n1 := node(0); n2 := node(1); n2 = std::move(n1)`
(move assignment) `; ~n2; ~n1`, starting from all-zero refcounts. -/
def node_move_assign_scenario : Nat → Int :=
  let s1 := node_ctor 0 (fun _ => 0)
  let s2 := node_ctor 1 s1.2
  let s3 := node_move_assign s2.1 s1.1 s2.2
  let rc4 := node_dtor s3.1.1 s3.2
  node_dtor s3.1.2 rc4

example :
    pull_all obj_not_nat [⟨fun x => some (x + 1), .map⟩] [1, 2, 3, 4] =
      ([2, 3, 4, 5], .exhausted) := by decide

example :
    pull_all obj_not_nat
      [⟨fun x => some (if 2 < x then 1 else 0), .filter⟩,
       ⟨fun x => some (x + 1), .map⟩] [1, 2, 3, 4] =
      ([4, 5], .exhausted) := by decide

example :
    naive_nested_eval obj_not_nat
      [⟨fun x => some (if 2 < x then 1 else 0), .filter⟩,
       ⟨fun x => some (x + 1), .map⟩] [1, 2, 3, 4] =
      ([4, 5], .exhausted) := by decide

/-! ### Lemmas: the fused interpreter agrees with the naive nested chain -/

lemma pull_all_nil_steps (objN : Val → Option Bool) (s : List Val) :
    pull_all objN [] s = (s, .exhausted) := by
  induction s with
  | nil => rfl
  | cons e t ih => simp [pull_all, run_steps, ih]

/-- Fusing one stage: running the whole pipeline `st :: rest` elementwise is
the same as running `st` over the source first and feeding its output stream
to the rest of the pipeline. -/
lemma pull_all_cons_stage (objN : Val → Option Bool)
    (st : node (Val → Option Val)) (rest : List (node (Val → Option Val)))
    (s : List Val) :
    pull_all objN (st :: rest) s =
      ((pull_all objN rest (step_eval objN st s).1).1,
        match (pull_all objN rest (step_eval objN st s).1).2 with
        | .errored => .errored
        | .exhausted => (step_eval objN st s).2) := by
  induction s with
  | nil => simp [pull_all, step_eval]
  | cons v t ih =>
    cases hfv : st.function v with
    | none => simp [pull_all, step_eval, run_steps, hfv]
    | some a =>
      cases hk : st.kind with
      | map =>
        cases hra : run_steps objN rest a with
        | yielded w => simp [pull_all, step_eval, run_steps, hfv, hk, hra, ih]
        | filtered => simp [pull_all, step_eval, run_steps, hfv, hk, hra, ih]
        | errored => simp [pull_all, step_eval, run_steps, hfv, hk, hra]
      | filter =>
        cases hna : objN a with
        | none => simp [pull_all, step_eval, run_steps, hfv, hk, hna]
        | some b =>
          cases b with
          | true => simp [pull_all, step_eval, run_steps, hfv, hk, hna, ih]
          | false =>
            cases hrv : run_steps objN rest v with
            | yielded w =>
              simp [pull_all, step_eval, run_steps, hfv, hk, hna, hrv, ih]
            | filtered =>
              simp [pull_all, step_eval, run_steps, hfv, hk, hna, hrv, ih]
            | errored =>
              simp [pull_all, step_eval, run_steps, hfv, hk, hna, hrv]

lemma pull_all_eq_naive (objN : Val → Option Bool)
    (steps : List (node (Val → Option Val))) (s : List Val) :
    pull_all objN steps s = naive_nested_eval objN steps s := by
  induction steps generalizing s with
  | nil => simp [naive_nested_eval, pull_all_nil_steps]
  | cons st rest ih =>
    rw [pull_all_cons_stage]
    simp [naive_nested_eval, ih]

/-- `pull_all` is literally repeated `interpreted_next`: each pull either
yields the next output and recurses on the remaining source, or ends the
stream with the pull's terminal outcome. -/
lemma pull_all_is_repeated_pull_one (objN : Val → Option Bool)
    (steps : List (node (Val → Option Val))) (s : List Val) :
    pull_all objN steps s =
      (match interpreted_next objN steps s with
       | (.value v, s2) =>
         (v :: (pull_all objN steps s2).1, (pull_all objN steps s2).2)
       | (.exhausted, _) => ([], .exhausted)
       | (.errored, _) => ([], .errored)) := by
  induction s with
  | nil => rfl
  | cons e t ih =>
    cases hre : run_steps objN steps e with
    | yielded v => simp [pull_all, interpreted_next, hre]
    | filtered =>
      simp only [pull_all, interpreted_next, hre]
      exact ih
    | errored => simp [pull_all, interpreted_next, hre]

/-- Claim C1: for every finite source and every map/filter pipeline, pulling
all elements from the fused iterator yields exactly the same sequence, in the
same order (and the same terminal outcome), as the naive nested map/filter
implementation; and pulling all elements is exactly repeated invocation of
the interpreter's pull-one routine. -/
theorem claim_C1_fused_equals_naive :
    ∀ (V : Type) (objN : V → Option Bool)
      (steps : List (node (V → Option V))) (s : List V),
      pull_all objN steps s = naive_nested_eval objN steps s ∧
      pull_all objN steps s =
        (match interpreted_next objN steps s with
         | (.value v, s2) =>
           (v :: (pull_all objN steps s2).1, (pull_all objN steps s2).2)
         | (.exhausted, _) => ([], .exhausted)
         | (.errored, _) => ([], .errored)) :=
  fun _ objN steps s =>
    ⟨pull_all_eq_naive objN steps s, pull_all_is_repeated_pull_one objN steps s⟩

/-! ### Lemmas: JIT lowering refines the interpreter -/

lemma jit_run_steps_eq_run_steps (objN : Val → Option Bool)
    (steps : List (node (Val → Option Val))) (element : Val) :
    jit_run_steps objN steps element = run_steps objN steps element := by
  induction steps generalizing element with
  | nil => rfl
  | cons st rest ih =>
    cases hfv : st.function element with
    | none => simp [jit_run_steps, run_steps, hfv]
    | some a =>
      cases hk : st.kind with
      | map => simp [jit_run_steps, run_steps, hfv, hk, ih]
      | filter =>
        cases hna : objN a with
        | none => simp [jit_run_steps, run_steps, hfv, hk, hna]
        | some b => cases b <;> simp [jit_run_steps, run_steps, hfv, hk, hna, ih]

lemma compiled_next_eq_interpreted_next (objN : Val → Option Bool)
    (steps : List (node (Val → Option Val))) (s : List Val) :
    compiled_next objN steps s = interpreted_next objN steps s := by
  induction s with
  | nil => rfl
  | cons e t ih =>
    cases hre : run_steps objN steps e with
    | yielded v =>
      simp [compiled_next, interpreted_next, jit_run_steps_eq_run_steps, hre]
    | filtered =>
      simp only [compiled_next, interpreted_next,
        jit_run_steps_eq_run_steps, hre]
      exact ih
    | errored =>
      simp [compiled_next, interpreted_next, jit_run_steps_eq_run_steps, hre]

/-- Claim C4: for every pipeline, each call of the JIT-compiled next function
produces the same observable result as the interpreted pull-one on the same
source state — equal elements in equal order, exhaustion at the same point,
and errors at the same points. -/
theorem claim_C4_compiled_matches_interpreted :
    ∀ (V : Type) (objN : V → Option Bool)
      (steps : List (node (V → Option V))) (s : List V),
      compiled_next objN steps s = interpreted_next objN steps s :=
  fun _ objN steps s => compiled_next_eq_interpreted_next objN steps s

/-! ### Lemmas: handle conservation in the interpreter's pull-one -/

/-- Balance invariant of the `part_000` step loop: it enters owning one
handle (the element) and leaves owning `held_handles` of its outcome, so
acquisitions plus the incoming handle equal releases plus what it returns. -/
lemma run_steps_counted_balance (objN : Val → Option Bool)
    (steps : List (node (Val → Option Val))) (e : Val) :
    (run_steps_counted objN steps e).2.1 + 1 =
      (run_steps_counted objN steps e).2.2 +
        held_handles (run_steps_counted objN steps e).1 := by
  induction steps generalizing e with
  | nil => rfl
  | cons st rest ih =>
    cases hfv : st.function e with
    | none => simp [run_steps_counted, held_handles, hfv]
    | some a =>
      cases hk : st.kind with
      | map =>
        have := ih a
        simp only [run_steps_counted, hfv, hk]
        omega
      | filter =>
        cases hna : objN a with
        | none => simp [run_steps_counted, held_handles, hfv, hk, hna]
        | some b =>
          cases b with
          | true => simp [run_steps_counted, held_handles, hfv, hk, hna]
          | false =>
            have := ih e
            simp only [run_steps_counted, hfv, hk, hna]
            omega

/-- Handle conservation for the `part_000` variant of `interpreted_next`:
every pull acquires exactly as many handles as it releases plus the (zero or
one) handle it transfers to the caller — on value, exhaustion and error
outcomes alike. -/
lemma interpreted_next_counted_conservation (objN : Val → Option Bool)
    (steps : List (node (Val → Option Val))) (s : List Val) :
    (interpreted_next_counted objN steps s).2.1 =
      (interpreted_next_counted objN steps s).2.2 +
        transferred (interpreted_next_counted objN steps s).1.1 := by
  induction s with
  | nil => rfl
  | cons e t ih =>
    have hb := run_steps_counted_balance objN steps e
    cases hre : (run_steps_counted objN steps e).1 with
    | yielded v =>
      rw [hre] at hb
      simp only [held_handles] at hb
      simp only [interpreted_next_counted, hre, transferred]
      omega
    | errored =>
      rw [hre] at hb
      simp only [held_handles] at hb
      simp only [interpreted_next_counted, hre, transferred]
      omega
    | filtered =>
      rw [hre] at hb
      simp only [held_handles] at hb
      simp only [interpreted_next_counted, hre]
      omega

/-- Claim C2 (code bug evidence): in the `part_000` variant every Map step
releases the pre-map element after assigning the mapped result, and handle
conservation holds on every path — acquisitions equal releases plus the
transferred result.  The `fused.cc` variant violates the claim: on the
one-step map pipeline over the one-element source `[1]` it acquires two
handles (element and mapped result), releases none, and returns one, leaking
the pre-map element handle. -/
theorem claim_C2_map_step_handle_conservation :
    (∀ (V : Type) (objN : V → Option Bool)
      (steps : List (node (V → Option V))) (s : List V),
      (interpreted_next_counted objN steps s).2.1 =
        (interpreted_next_counted objN steps s).2.2 +
          transferred (interpreted_next_counted objN steps s).1.1) ∧
    interpreted_next_counted_leaky obj_not_nat
      [⟨fun x => some x, .map⟩] [1] = ((.value 1, []), 2, 0) :=
  ⟨fun _ objN steps s => interpreted_next_counted_conservation objN steps s,
   by decide⟩

/-! ### Terminal outcomes are not sticky -/

/-- Claim C6 counterexample: the iterator keeps no terminal state.  On the
pipeline `[Map raising_on_two]` over `[1, 2, 3]`, the first pull yields 2,
the second pull reports an error, but the third pull advances the source
again, invokes the callable, and yields 4 — contradicting the claim that
after an error every subsequent pull reports the same terminal outcome and
performs no further work. -/
theorem claim_C6_counterexample :
    interpreted_next obj_not_nat [⟨raising_on_two, .map⟩] [1, 2, 3] =
        (.value 2, [2, 3]) ∧
      interpreted_next obj_not_nat [⟨raising_on_two, .map⟩] [2, 3] =
        (.errored, [3]) ∧
      interpreted_next obj_not_nat [⟨raising_on_two, .map⟩] [3] =
        (.value 4, []) := by
  refine ⟨?_, ?_, ?_⟩ <;> decide

/-- Claim C6 (amended): once a pull has reported exhaustion the source is
spent, and every subsequent pull again reports exhaustion and consumes
nothing; but an error outcome is not sticky — the erroring pull consumes the
offending element, and the next pull re-runs the loop from source advance on
the remaining stream and may yield further values, as the pipeline
`[Map raising_on_two]` over the post-error state `[3]` shows. -/
theorem claim_C6_terminal_states :
    (∀ (V : Type) (objN : V → Option Bool)
      (steps : List (node (V → Option V))),
      interpreted_next objN steps ([] : List V) = (.exhausted, [])) ∧
    interpreted_next obj_not_nat [⟨raising_on_two, .map⟩] [3] =
      (.value 4, []) :=
  ⟨fun _ _ _ => rfl, by decide⟩

/-! ### Lemmas: to_list versus repeated pull-one -/

/-- The `to_list` loop accumulates exactly the successfully-appended
elements of the pull-all stream; it returns null exactly when a callable or
truthiness error cuts the stream, while a spent source — exhausted or
advance-errored alike — makes it return the accumulated list, the error
state pending exactly when an append failed or the source's final null was
an advance error. -/
lemma to_list_go_spec (objN : Val → Option Bool)
    (steps : List (node (Val → Option Val))) (app : Val → Bool)
    (send : end_state) (s : List Val) : ∀ (out : List Val) (pending : Bool),
    to_list_go objN steps app send s out pending =
      (match (pull_all objN steps s).2 with
       | .exhausted =>
         (some (out ++ (pull_all objN steps s).1.filter app),
          (pending || (pull_all objN steps s).1.any (fun v => !(app v))) ||
            decide (send = end_state.errored))
       | .errored => (none, true)) := by
  induction s with
  | nil => intro out pending; simp [to_list_go, pull_all]
  | cons e t ih =>
    intro out pending
    cases hre : run_steps objN steps e with
    | yielded v =>
      cases happ : app v with
      | true =>
        simp only [to_list_go, pull_all, hre, happ, if_true, ih]
        cases hP : (pull_all objN steps t).2 with
        | exhausted =>
          simp [List.filter_cons, List.any_cons, happ, List.append_assoc]
        | errored => simp
      | false =>
        simp only [to_list_go, pull_all, hre, happ, Bool.false_eq_true,
          if_false, ih]
        cases hP : (pull_all objN steps t).2 with
        | exhausted => simp [List.filter_cons, List.any_cons, happ]
        | errored => simp
    | filtered =>
      simp only [to_list_go, pull_all, hre]
      exact ih out pending
    | errored => simp [to_list_go, pull_all, hre]

/-- Claim C5 counterexample.  First: with the one-step map pipeline
`x ↦ some (x + 1)` over a source that yields 1 and then fails to advance,
`to_list` returns the list `[2]` with the host error still pending — the
loop exits on the null from `PyIter_Next` without a `PyErr_Occurred` check,
so a source-advance error neither discards the partial list nor surfaces as
an error return.  Second: with `PyList_Append` failing on the value 2 over
source `[1]`, `to_list` returns the empty list instead of the error — the
append's return value is never checked.  Third: on the callable-error path
(map raising on the second source element of `[1, 2]`), the routine acquires
4 handles (list, two elements, one mapped value) but releases only 3: the
producer's reference to the appended value is never released. -/
theorem claim_C5_counterexample :
    interpreted_to_list obj_not_nat [⟨fun x => some (x + 1), .map⟩]
        (fun _ => true) end_state.errored [1] = (some [2], true) ∧
      interpreted_to_list obj_not_nat [⟨fun x => some (x + 1), .map⟩]
        (fun v => decide (v ≠ 2)) end_state.exhausted [1] = (some [], true) ∧
      interpreted_to_list_counted obj_not_nat
        [⟨raising_on_two, .map⟩] [1, 2] = (none, 4, 3) := by
  refine ⟨by decide, by decide, by decide⟩

/-- Claim C5 (amended): `to_list` returns the host list obtained by
repeatedly invoking pull-one and appending each yielded element whose
append succeeds; a callable or truthiness error mid-stream discards the
partial list, releases the in-flight element and the list handle, and
returns the error.  But a source-advance error is never checked: the loop
treats the source's null like exhaustion and returns the partial list with
the host error state still pending; each list append's result is likewise
unchecked, so an append failure neither stops iteration nor makes `to_list`
return an error (the element is missing from the result and the host error
state is left pending), and the producer's reference to each appended
element is never released. -/
theorem claim_C5_to_list_materialization :
    (∀ (V : Type) (objN : V → Option Bool)
      (steps : List (node (V → Option V))) (app : V → Bool)
      (send : end_state) (s : List V),
      interpreted_to_list objN steps app send s =
        (match (pull_all objN steps s).2 with
         | .exhausted =>
           (some ((pull_all objN steps s).1.filter app),
            ((pull_all objN steps s).1.any (fun v => !(app v))) ||
              decide (send = end_state.errored))
         | .errored => (none, true))) ∧
    interpreted_to_list_counted obj_not_nat
      [⟨raising_on_two, .map⟩] [1, 2] = (none, 4, 3) :=
  ⟨fun _ objN steps app send s => by
      have h := to_list_go_spec objN steps app send s [] false
      rw [interpreted_to_list, h]
      cases hP : (pull_all objN steps s).2 <;> simp,
   by decide⟩

/-! ### Lemmas: pipeline extension and Map-over-Map fusion -/

section extension

variable {F : Type}

lemma fused_extend_iter (f : F) (kind : node_kind) (tail : fused F)
    (compose : F → F → Option F) :
    (fused_extend f kind tail compose).iter = tail.iter := by
  unfold fused_extend
  cases tail.steps.getLast? with
  | none => rfl
  | some last =>
    dsimp only
    split
    · cases compose f last.function <;> rfl
    · rfl

lemma fused_extend_success (f : F) (tail : fused F)
    (compose : F → F → Option F) (last : node F) (c : F)
    (hl : tail.steps.getLast? = some last) (hk : last.kind = node_kind.map)
    (hc : compose f last.function = some c) :
    fused_extend f node_kind.map tail compose =
      ⟨tail.steps.dropLast ++ [⟨c, node_kind.map⟩], tail.iter⟩ := by
  unfold fused_extend
  rw [hl]
  simp [hk, hc]

lemma fused_extend_compose_fail (f : F) (tail : fused F)
    (compose : F → F → Option F) (last : node F)
    (hl : tail.steps.getLast? = some last) (hk : last.kind = node_kind.map)
    (hc : compose f last.function = none) :
    fused_extend f node_kind.map tail compose =
      ⟨tail.steps ++ [⟨f, node_kind.map⟩], tail.iter⟩ := by
  unfold fused_extend
  rw [hl]
  simp [hk, hc]

lemma fused_extend_append (f : F) (kind : node_kind) (tail : fused F)
    (compose : F → F → Option F)
    (h : ∀ last, tail.steps.getLast? = some last →
      ¬(kind = node_kind.map ∧ last.kind = node_kind.map)) :
    fused_extend f kind tail compose =
      ⟨tail.steps ++ [⟨f, kind⟩], tail.iter⟩ := by
  unfold fused_extend
  cases hl : tail.steps.getLast? with
  | none => rfl
  | some last => simp [h last hl]

lemma map_node_count_append_single (l : List (node F)) (x : node F) :
    map_node_count (l ++ [x]) =
      map_node_count l + (if x.kind = node_kind.map then 1 else 0) := by
  simp [map_node_count, List.countP_append, List.countP_cons]

lemma fused_extend_map_count (f : F) (kind : node_kind) (tail : fused F)
    (compose : F → F → Option F) :
    map_node_count (fused_extend f kind tail compose).steps ≤
      map_node_count tail.steps +
        (if kind = node_kind.map then 1 else 0) := by
  cases hl : tail.steps.getLast? with
  | none =>
    rw [fused_extend_append f kind tail compose
      (by intro last hh; rw [hl] at hh; cases hh)]
    simp [map_node_count_append_single]
  | some last =>
    by_cases h : kind = node_kind.map ∧ last.kind = node_kind.map
    · obtain ⟨h1, h2⟩ := h
      subst h1
      cases hc : compose f last.function with
      | some c =>
        rw [fused_extend_success f tail compose last c hl h2 hc]
        obtain ⟨l2, hsteps⟩ := List.getLast?_eq_some_iff.mp hl
        rw [hsteps]
        simp [List.dropLast_concat, map_node_count_append_single, h2]
      | none =>
        rw [fused_extend_compose_fail f tail compose last hl h2 hc]
        simp [map_node_count_append_single]
    · rw [fused_extend_append f kind tail compose
        (by intro l2 hh; rw [hl] at hh; injection hh with e; subst e; exact h)]
      simp [map_node_count_append_single]

lemma foldl_extend_map_count (compose : F → F → Option F) :
    ∀ (calls : List (F × node_kind)) (acc : fused F),
      map_node_count
          ((calls.foldl (fun a c => fused_extend c.1 c.2 a compose)
            acc).steps) ≤
        map_node_count acc.steps +
          calls.countP (fun c => decide (c.2 = node_kind.map)) := by
  intro calls
  induction calls with
  | nil => intro acc; simp
  | cons c rest ih =>
    intro acc
    have h1 := ih (fused_extend c.1 c.2 acc compose)
    have h2 := fused_extend_map_count c.1 c.2 acc compose
    simp only [List.foldl_cons, List.countP_cons]
    by_cases hc2 : c.2 = node_kind.map <;> simp [hc2] at h1 h2 ⊢ <;> omega

lemma build_chain_map_count (f0 : F) (k0 : node_kind) (iter : Nat)
    (calls : List (F × node_kind)) (compose : F → F → Option F) :
    map_node_count (build_chain f0 k0 iter calls compose).steps ≤
      ((f0, k0) :: calls).countP (fun c => decide (c.2 = node_kind.map)) := by
  have h := foldl_extend_map_count compose calls (fused_over f0 k0 iter)
  rw [build_chain]
  simp only [List.countP_cons]
  have h0 : map_node_count (fused_over f0 k0 iter).steps =
      if k0 = node_kind.map then 1 else 0 := by
    cases k0 <;> simp [fused_over, map_node_count]
  by_cases hk0 : k0 = node_kind.map <;> simp [hk0] at h h0 ⊢ <;> omega

lemma fused_extend_no_adjacent (f : F) (kind : node_kind) (tail : fused F)
    (compose : F → F → Option F)
    (hch : no_adjacent_maps tail.steps)
    (hc : ∀ a b, (compose a b).isSome) :
    no_adjacent_maps (fused_extend f kind tail compose).steps := by
  cases hl : tail.steps.getLast? with
  | none =>
    rw [fused_extend_append f kind tail compose
      (by intro last hh; rw [hl] at hh; cases hh)]
    rw [List.getLast?_eq_none_iff.mp hl]
    simp [no_adjacent_maps]
  | some last =>
    by_cases h : kind = node_kind.map ∧ last.kind = node_kind.map
    · obtain ⟨h1, h2⟩ := h
      subst h1
      have hcs := hc f last.function
      cases hcomp : compose f last.function with
      | none => rw [hcomp] at hcs; simp at hcs
      | some c =>
        rw [fused_extend_success f tail compose last c hl h2 hcomp]
        obtain ⟨l2, hsteps⟩ := List.getLast?_eq_some_iff.mp hl
        rw [hsteps] at hch ⊢
        rw [List.dropLast_concat]
        rw [no_adjacent_maps, List.chain'_append] at hch ⊢
        obtain ⟨hch1, _, hlast⟩ := hch
        refine ⟨hch1, List.chain'_singleton _, ?_⟩
        intro x hx y hy
        simp only [List.head?_cons, Option.mem_def, Option.some.injEq] at hy
        subst hy
        have hxlast := hlast x hx last (by simp)
        intro hcon
        exact hxlast ⟨hcon.1, h2⟩
    · rw [fused_extend_append f kind tail compose
        (by intro l2 hh; rw [hl] at hh; injection hh with e; subst e; exact h)]
      rw [no_adjacent_maps, List.chain'_append]
      refine ⟨hch, List.chain'_singleton _, ?_⟩
      intro x hx y hy
      simp only [List.head?_cons, Option.mem_def, Option.some.injEq] at hy
      subst hy
      rw [hl] at hx
      simp only [Option.mem_def, Option.some.injEq] at hx
      subst hx
      intro hcon
      exact h ⟨hcon.2, hcon.1⟩

lemma build_chain_no_adjacent (f0 : F) (k0 : node_kind) (iter : Nat)
    (calls : List (F × node_kind)) (compose : F → F → Option F)
    (hc : ∀ a b, (compose a b).isSome) :
    no_adjacent_maps (build_chain f0 k0 iter calls compose).steps := by
  have key : ∀ (cs : List (F × node_kind)) (acc : fused F),
      no_adjacent_maps acc.steps →
      no_adjacent_maps
        ((cs.foldl (fun a c => fused_extend c.1 c.2 a compose) acc).steps) := by
    intro cs
    induction cs with
    | nil => intro acc h; exact h
    | cons c rest ih =>
      intro acc h
      exact ih _ (fused_extend_no_adjacent c.1 c.2 acc compose h hc)
  exact key calls _ (by simp [no_adjacent_maps, fused_over])

end extension

/-- Claim C3: extending a Map-ended pipeline with another Map calls
`compose(new_callable, last_callable)`; on success the last node's callable
is replaced in place and the step count equals the tail's (nothing is
appended); on compose failure, and in every non-Map-over-Map case, a new
node is appended, so construction always succeeds; consequently the number
of Map nodes is at most the number of map calls issued, and when compose
always succeeds no two adjacent Map steps remain. -/
theorem claim_C3_map_over_map_fusion :
    (∀ (F : Type) (f : F) (tail : fused F) (compose : F → F → Option F)
        (last : node F) (c : F),
      tail.steps.getLast? = some last → last.kind = node_kind.map →
      compose f last.function = some c →
      (fused_extend f node_kind.map tail compose).steps =
          tail.steps.dropLast ++ [⟨c, node_kind.map⟩] ∧
        (fused_extend f node_kind.map tail compose).steps.length =
          tail.steps.length) ∧
    (∀ (F : Type) (f : F) (tail : fused F) (compose : F → F → Option F)
        (last : node F),
      tail.steps.getLast? = some last → last.kind = node_kind.map →
      compose f last.function = none →
      (fused_extend f node_kind.map tail compose).steps =
        tail.steps ++ [⟨f, node_kind.map⟩]) ∧
    (∀ (F : Type) (f : F) (kind : node_kind) (tail : fused F)
        (compose : F → F → Option F),
      (∀ last, tail.steps.getLast? = some last →
        ¬(kind = node_kind.map ∧ last.kind = node_kind.map)) →
      (fused_extend f kind tail compose).steps =
        tail.steps ++ [⟨f, kind⟩]) ∧
    (∀ (F : Type) (f0 : F) (k0 : node_kind) (iter : Nat)
        (calls : List (F × node_kind)) (compose : F → F → Option F),
      map_node_count (build_chain f0 k0 iter calls compose).steps ≤
        ((f0, k0) :: calls).countP
          (fun c => decide (c.2 = node_kind.map))) ∧
    (∀ (F : Type) (f0 : F) (k0 : node_kind) (iter : Nat)
        (calls : List (F × node_kind)) (compose : F → F → Option F),
      (∀ a b, (compose a b).isSome) →
      no_adjacent_maps (build_chain f0 k0 iter calls compose).steps) := by
  refine ⟨?_, ?_, ?_, ?_, ?_⟩
  · intro F f tail compose last c hl hk hc
    have hne : tail.steps ≠ [] := by
      intro hnil; rw [hnil] at hl; cases hl
    have hlen : 0 < tail.steps.length := List.length_pos.mpr hne
    rw [fused_extend_success f tail compose last c hl hk hc]
    refine ⟨rfl, ?_⟩
    simp only [List.length_append, List.length_dropLast, List.length_cons,
      List.length_nil]
    omega
  · intro F f tail compose last hl hk hc
    rw [fused_extend_compose_fail f tail compose last hl hk hc]
  · intro F f kind tail compose h
    rw [fused_extend_append f kind tail compose h]
  · intro F f0 k0 iter calls compose
    exact build_chain_map_count f0 k0 iter calls compose
  · intro F f0 k0 iter calls compose hc
    exact build_chain_no_adjacent f0 k0 iter calls compose hc

/-- Claim C3 witness: concrete instances — Map-over-Map with a successful
compose replaces the last callable (7005 encodes the composition), a failing
compose appends a second Map node, a Filter is always appended, and a chain
of map/filter calls with a total compose has no two adjacent Map steps. -/
theorem claim_C3_witness :
    ((fused_extend (F := Nat) 7 node_kind.map (fused_over 5 node_kind.map 0)
        (fun a b => some (a * 1000 + b))).steps =
      (fused_over (F := Nat) 5 node_kind.map 0).steps.dropLast ++
        [⟨7005, node_kind.map⟩]) ∧
    ((fused_extend (F := Nat) 7 node_kind.map (fused_over 5 node_kind.map 0)
        (fun _ _ => none)).steps =
      (fused_over (F := Nat) 5 node_kind.map 0).steps ++
        [⟨7, node_kind.map⟩]) ∧
    ((fused_extend (F := Nat) 7 node_kind.filter
        (fused_over 5 node_kind.map 0)
        (fun a b => some (a * 1000 + b))).steps =
      (fused_over (F := Nat) 5 node_kind.map 0).steps ++
        [⟨7, node_kind.filter⟩]) ∧
    no_adjacent_maps (build_chain (F := Nat) 5 node_kind.map 0
      [(7, node_kind.map), (9, node_kind.filter), (11, node_kind.map)]
      (fun a b => some (a * 1000 + b))).steps :=
  ⟨(claim_C3_map_over_map_fusion.1 Nat 7 (fused_over 5 node_kind.map 0)
      (fun a b => some (a * 1000 + b)) ⟨5, node_kind.map⟩ 7005
      (by decide) (by decide) (by decide)).1,
   claim_C3_map_over_map_fusion.2.1 Nat 7 (fused_over 5 node_kind.map 0)
     (fun _ _ => none) ⟨5, node_kind.map⟩ (by decide) (by decide) (by decide),
   claim_C3_map_over_map_fusion.2.2.1 Nat 7 node_kind.filter
     (fused_over 5 node_kind.map 0) (fun a b => some (a * 1000 + b))
     (by intro last hl; simp),
   claim_C3_map_over_map_fusion.2.2.2.2 Nat 5 node_kind.map 0
     [(7, node_kind.map), (9, node_kind.filter), (11, node_kind.map)]
     (fun a b => some (a * 1000 + b)) (fun _ _ => rfl)⟩

/-! ### Lemmas: the steps() snapshot -/

/-- Claim C9: `steps()` maps each surviving step to a pair whose first field
is exactly "map" for a Map step and exactly "filter" for a Filter step and
whose second field is the step's callable; the list has length equal to the
number of surviving steps, and — the function being pure in the pipeline —
repeated calls return equal lists. -/
theorem claim_C9_steps_snapshot :
    ∀ (F : Type) (p : fused F),
      steps_method p =
          p.steps.map (fun st => (kind_name_spec st.kind, st.function)) ∧
        (steps_method p).length = p.steps.length := by
  intro F p
  constructor
  · unfold steps_method
    apply List.map_congr_left
    intro a _
    cases hk : a.kind <;> simp [kind_names, kind_index, kind_name_spec, hk]
  · simp [steps_method]

/-! ### Lemmas: the shared source stream -/

lemma interpreted_next_traced_result (objN : Val → Option Bool)
    (steps : List (node (Val → Option Val))) (s : List Val) :
    (interpreted_next_traced objN steps s).1 =
      interpreted_next objN steps s := by
  induction s with
  | nil => rfl
  | cons e t ih =>
    cases hre : run_steps objN steps e <;>
      simp [interpreted_next_traced, interpreted_next, hre, ih]

/-- One pull draws exactly a front segment of the shared source: its trace
is a take of the source and the remaining source is the matching drop. -/
lemma interpreted_next_traced_take_drop (objN : Val → Option Bool)
    (steps : List (node (Val → Option Val))) (s : List Val) :
    (interpreted_next_traced objN steps s).2 =
        s.take (interpreted_next_traced objN steps s).2.length ∧
      (interpreted_next_traced objN steps s).1.2 =
        s.drop (interpreted_next_traced objN steps s).2.length := by
  induction s with
  | nil => exact ⟨rfl, rfl⟩
  | cons e t ih =>
    cases hre : run_steps objN steps e with
    | yielded v => simp [interpreted_next_traced, hre]
    | errored => simp [interpreted_next_traced, hre]
    | filtered =>
      obtain ⟨ih1, ih2⟩ := ih
      constructor
      · simp only [interpreted_next_traced, hre, List.length_cons,
          List.take_succ_cons, List.cons.injEq, true_and]
        exact ih1
      · simp only [interpreted_next_traced, hre, List.length_cons,
          List.drop_succ_cons]
        exact ih2

/-- Claim C10: extension stores the very same source-iterator handle as the
tail, and two pipelines over one source draw from one shared stream — the
elements drawn by one pull and then by a pull of the other iterator are
consecutive disjoint front segments of the source, so an element consumed
through one is never produced by the other. -/
theorem claim_C10_shared_source_stream :
    (∀ (F : Type) (f : F) (kind : node_kind) (tail : fused F)
        (compose : F → F → Option F),
      (fused_extend f kind tail compose).iter = tail.iter) ∧
    (∀ (V : Type) (objN : V → Option Bool)
        (steps1 steps2 : List (node (V → Option V))) (s : List V),
      (interpreted_next_traced objN steps1 s).2 ++
          (interpreted_next_traced objN steps2
            (interpreted_next_traced objN steps1 s).1.2).2 =
        s.take ((interpreted_next_traced objN steps1 s).2.length +
          (interpreted_next_traced objN steps2
            (interpreted_next_traced objN steps1 s).1.2).2.length) ∧
      (interpreted_next_traced objN steps1 s).1.2 =
          s.drop (interpreted_next_traced objN steps1 s).2.length ∧
      (interpreted_next_traced objN steps2
          (interpreted_next_traced objN steps1 s).1.2).1.2 =
        s.drop ((interpreted_next_traced objN steps1 s).2.length +
          (interpreted_next_traced objN steps2
            (interpreted_next_traced objN steps1 s).1.2).2.length)) ∧
    (∀ (V : Type) (objN : V → Option Bool)
        (steps : List (node (V → Option V))) (s : List V),
      (interpreted_next_traced objN steps s).1 =
        interpreted_next objN steps s) := by
  refine ⟨fun F f kind tail compose => fused_extend_iter f kind tail compose,
    ?_, fun V objN steps s => interpreted_next_traced_result objN steps s⟩
  intro V objN steps1 steps2 s
  obtain ⟨h11, h12⟩ := interpreted_next_traced_take_drop objN steps1 s
  obtain ⟨h21, h22⟩ := interpreted_next_traced_take_drop objN steps2
    ((interpreted_next_traced objN steps1 s).1.2)
  refine ⟨?_, h12, ?_⟩
  · rw [List.take_add, ← h12, ← h11, ← h21]
  · rw [h22, h12, List.drop_drop]

/-! ### The JIT dispatcher decision -/

/-- Claim C7 counterexample: with 10 steps, a length hint of exactly the
size threshold and a failing compilation, `first_next` propagates the error
but leaves `m_next` as the dispatcher, so the next pull re-runs the decision
(and here succeeds in compiling) — contradicting the claim that no later
pull ever re-runs the decision. -/
theorem claim_C7_counterexample :
    first_next 10 50000000 none = (next_fn.first, dispatch_out.errored) ∧
      iternext_dispatch (first_next 10 50000000 none).1 10 50000000
          (some ()) =
        (next_fn.compiled, dispatch_out.ran_compiled) := by
  exact ⟨by decide, by decide⟩

/-- Claim C7 (amended): `first_next` decides on the first pull — below
either threshold, `m_next` is permanently set to the interpreted routine; at
or above both thresholds, compilation is attempted and on success `m_next`
is permanently set to the compiled routine, while on failure the error is
propagated and `m_next` is left as the dispatcher, so the decision is re-run
(and compilation retried) on the next pull.  The interpreted and compiled
slots never change again. -/
theorem claim_C7_dispatcher_decision :
    (∀ (size hint : Nat) (cr : Option Unit),
      size < compile_threshold_steps ∨ hint < compile_threshold_size →
      first_next size hint cr =
        (next_fn.interpreted, dispatch_out.ran_interpreted)) ∧
    (∀ (size hint : Nat) (c : Unit),
      ¬(size < compile_threshold_steps ∨ hint < compile_threshold_size) →
      first_next size hint (some c) =
        (next_fn.compiled, dispatch_out.ran_compiled)) ∧
    (∀ size hint : Nat,
      ¬(size < compile_threshold_steps ∨ hint < compile_threshold_size) →
      first_next size hint none = (next_fn.first, dispatch_out.errored)) ∧
    (∀ (size hint : Nat) (cr : Option Unit),
      iternext_dispatch next_fn.interpreted size hint cr =
          (next_fn.interpreted, dispatch_out.ran_interpreted) ∧
        iternext_dispatch next_fn.compiled size hint cr =
          (next_fn.compiled, dispatch_out.ran_compiled) ∧
        iternext_dispatch next_fn.first size hint cr =
          first_next size hint cr) := by
  refine ⟨?_, ?_, ?_, ?_⟩
  · intro size hint cr h
    simp [first_next, h]
  · intro size hint c h
    simp [first_next, h]
  · intro size hint h
    simp [first_next, h]
  · intro size hint cr
    exact ⟨rfl, rfl, rfl⟩

/-- Claim C7 witness: the three decision branches at concrete inputs. -/
theorem claim_C7_witness :
    first_next 3 0 none =
        (next_fn.interpreted, dispatch_out.ran_interpreted) ∧
      first_next 10 50000000 (some ()) =
        (next_fn.compiled, dispatch_out.ran_compiled) ∧
      first_next 10 50000000 none = (next_fn.first, dispatch_out.errored) :=
  ⟨claim_C7_dispatcher_decision.1 3 0 none (Or.inl (by decide)),
   claim_C7_dispatcher_decision.2.1 10 50000000 () (by decide),
   claim_C7_dispatcher_decision.2.2.1 10 50000000 (by decide)⟩

/-! ### StepNode special members and the callable refcount -/

/-- Claim C8 (code bug evidence): copy construction plus destruction is
balanced (callable 0 ends at refcount 0 with no live node), but copy
assignment and move assignment do not release the destination's previously
held reference: after `n2 = n1` (or `n2 = std::move(n1)`) and destroying
all nodes, callable 1 — previously held by `n2` — ends at refcount 1 with
zero live nodes holding it, violating the claimed reference conservation. -/
theorem claim_C8_node_special_members :
    (node_copy_ctor_scenario 0 = 0) ∧
      (node_copy_assign_scenario 0 = 0 ∧ node_copy_assign_scenario 1 = 1) ∧
      (node_move_assign_scenario 0 = 0 ∧
        node_move_assign_scenario 1 = 1) := by
  refine ⟨by decide, ⟨by decide, by decide⟩, by decide, by decide⟩

end Gotenks
